import Mathlib

/-!
Verification of the seitenkraftorg backend against its specification.

The Python sources are shallowly embedded: strings become `List Char`,
dictionaries become structures with `Option` fields, raised exceptions become
`Except`, and the two external services (managed database, INWX JSON-RPC
registrar) become explicit parameters supplying the outcome of each remote
call.  All definitions are structural recursions so that concrete inputs
evaluate inside the kernel.
-/

/-! ## Character classes

The normalizer `clean_domain_name` (src/backend/app/services/domain_suggestion.py)
works on ASCII text; character classes are stated via `Char.toNat` ranges so
that arithmetic reasoning applies. -/

/-- Python regex word character over ASCII text: `[a-zA-Z0-9_]`.  Used by the
word-boundary assertions of the legal-suffix regex. -/
def isWordChar (c : Char) : Bool :=
  (97 ≤ c.toNat && c.toNat ≤ 122) || (65 ≤ c.toNat && c.toNat ≤ 90) ||
    (48 ≤ c.toNat && c.toNat ≤ 57) || c == '_'

/-- ASCII whitespace as matched by the regex class `\s`:
space, tab, newline, vertical tab, form feed, carriage return. -/
def isPySpace (c : Char) : Bool :=
  c.toNat == 32 || c.toNat == 9 || c.toNat == 10 || c.toNat == 11 ||
    c.toNat == 12 || c.toNat == 13

/-- A character of the regex class `[\s-]` (whitespace or hyphen), the class
collapsed into single hyphens by `clean_domain_name`. -/
def isSpaceHyphen (c : Char) : Bool :=
  isPySpace c || c == '-'

/-- A character kept by the stripping step `re.sub(r'[^a-z0-9\s-]', '', name)`:
lowercase letter, digit, whitespace, or hyphen. -/
def keepChar (c : Char) : Bool :=
  (97 ≤ c.toNat && c.toNat ≤ 122) || (48 ≤ c.toNat && c.toNat ≤ 57) ||
    isPySpace c || c == '-'

/-- A character that may appear in the final output of `clean_domain_name`:
lowercase ASCII letter, digit, or hyphen. -/
def isCleanChar (c : Char) : Bool :=
  (97 ≤ c.toNat && c.toNat ≤ 122) || (48 ≤ c.toNat && c.toNat ≤ 57) || c == '-'

/-! ## Transliteration and lower-casing -/

/-- Modelled from the spec: the third-party `unidecode` transliteration used by
`clean_domain_name` is not part of this repository.  The spec says it
"transliterates non-ASCII letters to their closest ASCII equivalents (e.g.
diacritics stripped)".  ASCII characters map to themselves; a table covers the
common German characters; other characters are dropped. -/
def unidecodeChar (c : Char) : List Char :=
  if c.toNat ≤ 127 then [c]
  else if c == 'ä' then ['a']
  else if c == 'ö' then ['o']
  else if c == 'ü' then ['u']
  else if c == 'Ä' then ['A']
  else if c == 'Ö' then ['O']
  else if c == 'Ü' then ['U']
  else if c == 'ß' then ['s', 's']
  else if c == 'é' then ['e']
  else if c == 'è' then ['e']
  else if c == 'à' then ['a']
  else if c == 'ç' then ['c']
  else []

/-- `unidecode(name)`: concatenation of per-character transliterations. -/
def unidecode : List Char → List Char
  | [] => []
  | c :: rest => unidecodeChar c ++ unidecode rest

/-- Python `str.lower()` on one character, for the ASCII range relevant after
transliteration: uppercase letters are shifted by 32, all else is unchanged. -/
def pyLowerChar (c : Char) : Char :=
  if 65 ≤ c.toNat && c.toNat ≤ 90 then Char.ofNat (c.toNat + 32) else c

/-! ## Legal-suffix removal

`re.sub(r'\b(gmbh|ag|kg|ohg|gbr|e\.?v\.?|ug|mbh)\b', '', name, flags=re.IGNORECASE)`
applied to the already lower-cased text.  The alternation is expanded into
literal candidates in the regex engine's backtracking order (the alternative
`e\.?v\.?` expands greedily into four literals), each guarded by the two
word-boundary assertions.  `re.sub` takes the leftmost, non-overlapping matches
against the original string and deletes them. -/

/-- The suffix alternation as literal candidates, in matching order. -/
def suffixPats : List (List Char) :=
  [['g', 'm', 'b', 'h'], ['a', 'g'], ['k', 'g'], ['o', 'h', 'g'],
   ['g', 'b', 'r'],
   ['e', '.', 'v', '.'], ['e', '.', 'v'], ['e', 'v', '.'], ['e', 'v'],
   ['u', 'g'], ['m', 'b', 'h']]

/-- The regex word-boundary assertion `\b` between an optional previous and an
optional next character: holds when exactly one side is a word character. -/
def boundaryB (prev next : Option Char) : Bool :=
  (match prev with | some c => isWordChar c | none => false) !=
    (match next with | some c => isWordChar c | none => false)

/-- Whether pattern `p` matches at the current position: a word boundary before,
`p` is a literal prefix of the remaining text `l`, and a word boundary after.
`prev` is the character just before the position in the original string. -/
def patMatches (prev : Option Char) (l p : List Char) : Bool :=
  boundaryB prev l.head? && p.isPrefixOf l &&
    boundaryB (some (p.getLastD ' ')) (l.drop p.length).head?

/-- First alternative (in backtracking order) matching at the current position. -/
def findPat (prev : Option Char) (l : List Char) : Option (List Char) :=
  suffixPats.find? (patMatches prev l)

/-- One scan of `re.sub(pattern, '', text)`: walk the text, delete each leftmost
match and continue after it.  `fuel` is an upper bound on the remaining length,
making the recursion structural. -/
def removeSuffixAux (prev : Option Char) : Nat → List Char → List Char
  | 0, _ => []
  | _ + 1, [] => []
  | fuel + 1, c :: rest =>
    match findPat prev (c :: rest) with
    | some p => removeSuffixAux (some (p.getLastD c)) fuel ((c :: rest).drop p.length)
    | none => c :: removeSuffixAux (some c) fuel rest

/-- The legal-suffix removal step of `clean_domain_name`. -/
def removeSuffixes (l : List Char) : List Char :=
  removeSuffixAux none l.length l

/-! ## Stripping, collapsing, trimming -/

/-- `re.sub(r'[^a-z0-9\s-]', '', name)`: drop every disallowed character. -/
def stripIllegal (l : List Char) : List Char :=
  l.filter keepChar

/-- `re.sub(r'[\s-]+', '-', name)`: each maximal run of whitespace/hyphens
becomes a single hyphen.  The flag records whether the previous character was
part of a run (so the run already emitted its hyphen). -/
def collapseAux : Bool → List Char → List Char
  | _, [] => []
  | inRun, c :: rest =>
    if isSpaceHyphen c then
      (if inRun then [] else ['-']) ++ collapseAux true rest
    else c :: collapseAux false rest

/-- The whitespace/hyphen collapsing step of `clean_domain_name`. -/
def collapseRuns (l : List Char) : List Char :=
  collapseAux false l

/-- Python `str.strip('-')`: remove all leading and trailing hyphens. -/
def stripHyphens (l : List Char) : List Char :=
  ((l.dropWhile (· == '-')).reverse.dropWhile (· == '-')).reverse

/-- `DomainSuggestionService.clean_domain_name`
(src/backend/app/services/domain_suggestion.py): transliterate to ASCII,
lower-case, remove legal-entity suffixes, strip illegal characters, collapse
whitespace/hyphen runs, trim edge hyphens. -/
def clean_domain_name (name : List Char) : List Char :=
  stripHyphens (collapseRuns (stripIllegal (removeSuffixes
    (List.map pyLowerChar (unidecode name)))))

/-- No two consecutive hyphens occur in the list. -/
def noDoubleHyphen : List Char → Bool
  | [] => true
  | [_] => true
  | a :: b :: rest => !(a == '-' && b == '-') && noDoubleHyphen (b :: rest)

/-! ## Suggestion engine

`DomainSuggestionService.generate_variations` and `generate_suggestions`
(src/backend/app/services/domain_suggestion.py).  The TLD list fetched from the
database (`get_tlds_for_country`) is an external call and enters the model as a
parameter. -/

/-- Convenience: the character list of a string literal. -/
def chars (s : String) : List Char :=
  s.toList

/-- A row of the `domains_tld` table as used by the suggestion engine. -/
structure TldData where
  tld : List Char
  vk_eur : Int
  prio : Int
deriving DecidableEq, Repr

/-- The `DomainSuggestion` response model (src/backend/app/models/schemas.py). -/
structure DomainSuggestion where
  domain : List Char
  tld : List Char
  verfuegbar : Option Bool
  preis_eur : Int
  prio : Int
  empfohlen : Bool
deriving DecidableEq, Repr

/-- The sector-to-keyword table `branche_keywords` in `generate_variations`,
with `dict.get(branche, [])` lookup. -/
def branche_keywords (b : List Char) : List (List Char) :=
  if b = chars "handwerker" then [chars "handwerk", chars "meister", chars "service"]
  else if b = chars "haendler" then [chars "shop", chars "store", chars "markt"]
  else if b = chars "dienstleister" then [chars "service", chars "pro", chars "experte"]
  else []

/-- The seen-set deduplication loop at the end of `generate_variations`:
keep the first occurrence of each entry, preserving order. -/
def dedupAux (seen : List (List Char)) : List (List Char) → List (List Char)
  | [] => []
  | v :: rest => if v ∈ seen then dedupAux seen rest else v :: dedupAux (v :: seen) rest

/-- `DomainSuggestionService.generate_variations`: the base itself, then
`base-keyword` and `keyword-base` for each sector keyword, then the three
generic variants, deduplicated preserving first occurrence. -/
def generate_variations (base : List Char) (branche : Option (List Char)) : List (List Char) :=
  let sectorVars :=
    match branche with
    | none => []
    | some b => (branche_keywords b).flatMap
        (fun k => [base ++ '-' :: k, k ++ '-' :: base])
  dedupAux [] ([base] ++ sectorVars ++
    [base ++ chars "-online", chars "mein-" ++ base, base ++ chars "-24"])

/-- One suggestion built inside the nested loop of `generate_suggestions`. -/
def mkSuggestion (clean_base variation : List Char) (t : TldData) : DomainSuggestion :=
  { domain := variation ++ '.' :: t.tld
    tld := t.tld
    verfuegbar := none
    preis_eur := t.vk_eur
    prio := t.prio
    empfohlen := (variation == clean_base) && decide (90 ≤ t.prio) }

/-- The inner loop of `generate_suggestions`: append one suggestion per TLD,
stopping as soon as `max_suggestions` have been accumulated. -/
def addTlds (clean_base variation : List Char) (maxS : Nat) :
    List TldData → List DomainSuggestion → List DomainSuggestion
  | [], acc => acc
  | t :: ts, acc =>
    if maxS ≤ acc.length then acc
    else addTlds clean_base variation maxS ts (acc ++ [mkSuggestion clean_base variation t])

/-- The outer loop of `generate_suggestions` over the (at most 5) variations,
with the early exit after each inner loop. -/
def addVariations (clean_base : List Char) (tlds : List TldData) (maxS : Nat) :
    List (List Char) → List DomainSuggestion → List DomainSuggestion
  | [], acc => acc
  | v :: vs, acc =>
    let acc2 := addTlds clean_base v maxS tlds acc
    if maxS ≤ acc2.length then acc2 else addVariations clean_base tlds maxS vs acc2

/-- The Python sort key comparison `(not s.empfohlen, -s.prio) ≤ (not t.empfohlen, -t.prio)`
(tuples compare lexicographically; `False < True`). -/
def suggLE (a b : DomainSuggestion) : Bool :=
  if a.empfohlen == b.empfohlen then decide (b.prio ≤ a.prio) else a.empfohlen

/-- `suggLE` as a relation, for `List.insertionSort`. -/
def suggBefore (a b : DomainSuggestion) : Prop :=
  suggLE a b = true

instance : DecidableRel suggBefore := fun a b => by
  unfold suggBefore; infer_instance

instance : IsTotal DomainSuggestion suggBefore where
  total a b := by
    unfold suggBefore suggLE
    cases ha : a.empfohlen <;> cases hb : b.empfohlen <;>
      simp [ha, hb] <;> omega

instance : IsTrans DomainSuggestion suggBefore where
  trans a b c hab hbc := by
    unfold suggBefore suggLE at hab hbc ⊢
    cases ha : a.empfohlen <;> cases hb : b.empfohlen <;> cases hc : c.empfohlen <;>
      simp [ha, hb, hc] at hab hbc ⊢ <;> omega

/-- Python's stable `list.sort` with the key above. -/
def sortSuggestions (l : List DomainSuggestion) : List DomainSuggestion :=
  List.insertionSort suggBefore l

/-- `DomainSuggestionService.generate_suggestions`: clean the base, expand
variations, combine the first 5 variations with the fetched TLDs until
`max_suggestions` suggestions exist, sort (recommended first, then priority
descending, stable), truncate. -/
def generate_suggestions (wunschdomain_basis : List Char) (branche : Option (List Char))
    (tlds : List TldData) (max_suggestions : Nat) : List DomainSuggestion :=
  let clean_base := clean_domain_name wunschdomain_basis
  let variations := generate_variations clean_base branche
  let built := addVariations clean_base tlds max_suggestions (variations.take 5) []
  (sortSuggestions built).take max_suggestions

/-! ## Registrar adapter (INWXService, src/backend/app/services/inwx_service.py)

Every remote JSON-RPC round trip (`_call_api`) is an external event; the model
takes its outcome as a parameter of type `Except PyErr ApiResult`: `.error e`
when the call raises (network error, HTTP error status, malformed response, or
an `error` member in the JSON-RPC envelope), `.ok r` when it returns the
`result` member.  The adapter state is its `_session_id`. -/

/-- A raised Python exception, identified by its message (`str(e)`). -/
structure PyErr where
  msg : List Char
deriving DecidableEq, Repr

/-- The `result` dictionary of a JSON-RPC response, with the loosely-typed
fields the adapter reads (`resData` is flattened into `sessid`, `avail`,
`price`; absent keys are `none`). -/
structure ApiResult where
  code : Option Int
  msg : Option (List Char)
  sessid : Option (List Char)
  avail : Option Int
  price : Option Int
deriving DecidableEq, Repr

/-- Python truthiness of `self._session_id`: `None` and the empty string are
falsy. -/
def isTruthy : Option (List Char) → Bool
  | none => false
  | some s => !s.isEmpty

/-- Python `f"{x}"` of an optional string (`None` prints as `None`). -/
def optMsgStr : Option (List Char) → List Char
  | none => chars "None"
  | some m => m

/-- `INWXService.login`: one `account.login` call; a non-1000 result code
raises `ValueError`; on success `_session_id` is set to `resData.sessid`
(which may itself be absent). -/
def inwx_login (resp : Except PyErr ApiResult) : Except PyErr (Option (List Char)) :=
  match resp with
  | .error e => .error e
  | .ok r =>
    if r.code == some 1000 then .ok r.sessid
    else .error ⟨chars "INWX login failed: " ++ optMsgStr r.msg⟩

/-- Did `login` complete without raising? -/
def loginOkB (resp : Except PyErr ApiResult) : Bool :=
  match resp with
  | .error _ => false
  | .ok r => r.code == some 1000

/-- `INWXService.logout`: when a session id is set, one `account.logout` call
inside `try/finally`; the `finally` clears the session id, and an exception
from the call itself still propagates.  Returns the outcome and the new
session state. -/
def inwx_logout (sess : Option (List Char)) (resp : Except PyErr ApiResult) :
    Except PyErr Unit × Option (List Char) :=
  if isTruthy sess then
    match resp with
    | .error e => (.error e, none)
    | .ok _ => (.ok (), none)
  else (.ok (), sess)

/-- The dictionary returned by `INWXService.check_domain` (absent keys are
`none`). -/
structure CheckResult where
  domain : List Char
  avail : Bool
  status : List Char
  price : Option Int
  error : Option (List Char)
deriving DecidableEq, Repr

/-- `INWXService.check_domain`: lazily log in when no session id is set (this
happens outside the `try` block), then one `domain.check` call inside
`try/except Exception`; a non-1000 code becomes a `status = "error"` result,
a caught exception becomes a `status = "error"` result with `str(e)`, a 1000
code yields availability from `resData.avail == 1`.  Returns the result
together with the session state. -/
def inwx_check_domain (sess : Option (List Char))
    (loginResp checkResp : Except PyErr ApiResult) (domain : List Char) :
    Except PyErr (CheckResult × Option (List Char)) :=
  match (if isTruthy sess then .ok sess else inwx_login loginResp :
      Except PyErr (Option (List Char))) with
  | .error e => .error e
  | .ok sess2 =>
    .ok (match checkResp with
      | .error e => (⟨domain, false, chars "error", none, some e.msg⟩, sess2)
      | .ok r =>
        if r.code == some 1000 then
          let avail := r.avail.getD 0 == 1
          (⟨domain, avail, chars (if avail then "available" else "registered"),
            r.price, none⟩, sess2)
        else (⟨domain, false, chars "error", none, r.msg⟩, sess2))

/-- The `async with INWXService()` scope: `__aenter__` logs in (an exception
there propagates and `__aexit__` never runs); the body runs with the session
from login; `__aexit__` calls `logout` exactly once, and an exception raised by
`logout` propagates, while otherwise the body outcome (value or exception) is
passed through.  The second component counts how often the `logout` method ran. -/
def inwx_scope {α : Type} (loginResp : Except PyErr ApiResult)
    (body : Option (List Char) → Except PyErr α × Option (List Char))
    (logoutResp : Except PyErr ApiResult) : Except PyErr α × Nat :=
  match inwx_login loginResp with
  | .error e => (.error e, 0)
  | .ok sess =>
    let bres := body sess
    match (inwx_logout bres.2 logoutResp).1 with
    | .error e2 => (.error e2, 1)
    | .ok _ => (bres.1, 1)

/-! ## API layer (src/backend/app/api/domains.py)

The database adapter calls (`get_tld_by_name`, `get_kunde_by_id`,
`create_domain_registrierung`) are external; lookup outcomes enter as
parameters, and persistence is recorded in an explicit event list. -/

/-- `domain.split(".")[-1]`: the text after the last dot (the whole string when
no dot occurs). -/
def lastDotComponent (d : List Char) : List Char :=
  (d.reverse.takeWhile (· != '.')).reverse

/-- The per-domain entry of the `/domains/check` response
(`DomainCheckResult` in src/backend/app/models/schemas.py). -/
structure DomainCheckResult where
  domain : List Char
  verfuegbar : Bool
  preis_eur : Option Int
  fehler : Option (List Char)
deriving DecidableEq, Repr

/-- What one iteration of the `check_domains` loop produces for domain `d`,
given the outcome of the registrar call and of the TLD price lookup: the
result record on success, or the `except`-branch record carrying `str(e)`. -/
def processOne (d : List Char) (inwxRes : Except PyErr CheckResult)
    (dbRes : List Char → Except PyErr (Option TldData)) : DomainCheckResult :=
  match inwxRes with
  | .error e => ⟨d, false, none, some e.msg⟩
  | .ok ir =>
    match dbRes (lastDotComponent d) with
    | .error e => ⟨d, false, none, some e.msg⟩
    | .ok row => ⟨d, ir.avail, row.map (·.vk_eur), ir.error⟩

/-- The loop body of the `/domains/check` endpoint, transcribed with its
`try/except` around the registrar call (`inwx.check_domain`), the TLD suffix
split, and the price lookup; `i` indexes the loop iteration so the
environments `inwx` and `db` can vary per item. -/
def check_domainsAux (inwx : Nat → Except PyErr CheckResult)
    (db : Nat → List Char → Except PyErr (Option TldData)) :
    Nat → List (List Char) → List DomainCheckResult
  | _, [] => []
  | i, d :: rest =>
    (match inwx i with
      | .error e => ⟨d, false, none, some e.msg⟩
      | .ok ir =>
        match db i (lastDotComponent d) with
        | .error e => ⟨d, false, none, some e.msg⟩
        | .ok row => ⟨d, ir.avail, row.map (·.vk_eur), ir.error⟩) ::
      check_domainsAux inwx db (i + 1) rest

/-- The `/domains/check` endpoint `check_domains`: one registrar session is
opened around the whole batch (`async with INWXService()`), the loop above
runs inside it, and the scope exit performs logout. -/
def api_check_domains (loginResp logoutResp : Except PyErr ApiResult)
    (inwx : Nat → Except PyErr CheckResult)
    (db : Nat → List Char → Except PyErr (Option TldData))
    (domains : List (List Char)) : Except PyErr (List DomainCheckResult) :=
  (inwx_scope loginResp
    (fun sess => (.ok (check_domainsAux inwx db 0 domains), sess)) logoutResp).1

/-! ## Registration flow -/

/-- A row of the `kunden` table; only its existence matters to the
registration flow. -/
structure Kunde where
  id : List Char
deriving DecidableEq, Repr

/-- The dictionary returned by `INWXService.register_domain` (POC: a fake
success response, no remote call; it has no `error` key). -/
structure RegResult where
  success : Bool
  domain : List Char
  status : List Char
  message : List Char
  registration_id : List Char
deriving DecidableEq, Repr

/-- `INWXService.register_domain`: the POC fake registration, always
successful, with a registration id derived from the domain. -/
def inwx_register_domain (domain : List Char) : RegResult :=
  { success := true
    domain := domain
    status := chars "pending"
    message := chars "POC: Fake domain registration successful"
    registration_id := chars "fake-reg-" ++ domain }

/-- Python `str.rsplit(".", 1)` of a string containing a dot: the text before
and after the last dot. -/
def rsplitDot (s : List Char) : List Char × List Char :=
  (((s.reverse.dropWhile (· != '.')).drop 1).reverse,
    (s.reverse.takeWhile (· != '.')).reverse)

/-- The `registrierung_data` record persisted by the `/domains/register`
endpoint (the generated UUID enters as the parameter `newId`). -/
structure RegRecord where
  id : List Char
  kunden_id : List Char
  wunschdomain : List Char
  tld : List Char
  vollstaendige_domain : List Char
  vk_preis_eur : Int
  status : List Char
  inwx_request_domain : List Char
  inwx_response_payload : RegResult
deriving DecidableEq, Repr

/-- An observable side effect of the registration flow: a registrar
registration call, or a database insert of a registration record. -/
inductive RegEvent where
  | registrarCall (domain : List Char)
  | persist (rec : RegRecord)
deriving DecidableEq, Repr

/-- A failure surfaced by the `/domains/register` endpoint: an
`HTTPException` with status code and detail, or an uncaught Python exception. -/
inductive ApiFailure where
  | http (statusCode : Nat) (detail : List Char)
  | exc (e : PyErr)
deriving DecidableEq, Repr

/-- The `/domains/register` response model (success flag, persisted record,
optional error message; the fake registrar result has no `error` key, so the
message is `none`). -/
structure DomainRegisterResponse where
  success : Bool
  registrierung : RegRecord
  fehler : Option (List Char)
deriving DecidableEq, Repr

/-- The `/domains/register` endpoint `register_domain`: reject an unknown
customer (404), a domain without a dot (400), an unsupported TLD (400); then
call the registrar inside one `async with INWXService()` scope and persist the
registration record, whose status is `"registered"` when the registrar
reported success and `"failed"` otherwise.  Returns the endpoint outcome and
the list of observable side effects, in order. -/
def api_register_domain (kunde : Option Kunde)
    (tldLookup : List Char → Option TldData)
    (loginResp logoutResp : Except PyErr ApiResult)
    (newId kunden_id domain : List Char) :
    Except ApiFailure DomainRegisterResponse × List RegEvent :=
  match kunde with
  | none =>
    (.error (.http 404 (chars "Customer " ++ kunden_id ++ chars " not found")), [])
  | some _ =>
    if ¬ domain.contains '.' then
      (.error (.http 400 (chars "Invalid domain format")), [])
    else
      let wunschdomain := (rsplitDot domain).1
      let tld := (rsplitDot domain).2
      match tldLookup tld with
      | none =>
        (.error (.http 400 (chars "TLD " ++ tld ++ chars " not supported")), [])
      | some tld_data =>
        match inwx_login loginResp with
        | .error e => (.error (.exc e), [])
        | .ok sess =>
          let inwx_result := inwx_register_domain domain
          match (inwx_logout sess logoutResp).1 with
          | .error e2 => (.error (.exc e2), [.registrarCall domain])
          | .ok _ =>
            let rec0 : RegRecord :=
              { id := newId
                kunden_id := kunden_id
                wunschdomain := wunschdomain
                tld := tld
                vollstaendige_domain := domain
                vk_preis_eur := tld_data.vk_eur
                status := if inwx_result.success then chars "registered" else chars "failed"
                inwx_request_domain := domain
                inwx_response_payload := inwx_result }
            (.ok ⟨inwx_result.success, rec0, none⟩,
              [.registrarCall domain, .persist rec0])

/-! ## Helper lemmas -/

/-- When `loginOkB` holds, `login` returns the session id of the response. -/
theorem inwx_login_ok (resp : Except PyErr ApiResult) (h : loginOkB resp = true) :
    ∃ r, resp = .ok r ∧ inwx_login resp = .ok r.sessid := by
  cases resp with
  | error e => simp [loginOkB] at h
  | ok r =>
    refine ⟨r, rfl, ?_⟩
    simp [loginOkB] at h
    simp [inwx_login, h]

/-- `logout` cannot raise when the remote call did not raise. -/
theorem inwx_logout_ok (sess : Option (List Char)) (r : ApiResult) :
    (inwx_logout sess (.ok r)).1 = .ok () := by
  unfold inwx_logout
  by_cases h : isTruthy sess = true <;> simp [h]

/-- C1 (counterexample): with no session id stored and a login call that
raises, `check_domain` propagates the exception instead of returning a
structured result, contradicting "for every adapter state ... the operation
always returns a result record rather than raising". -/
theorem c1_counterexample :
    inwx_check_domain none (.error ⟨chars "network error"⟩)
      (.ok ⟨some 1000, none, none, some 1, none⟩) (chars "example.de")
      = .error ⟨chars "network error"⟩ := by
  rfl

/-- C1 (amended): whenever a session id is already set, or the lazy login
succeeds, `check_domain` returns a structured result and never raises; a
remote result code other than 1000 yields `status = "error"` with the remote
message attached, and a raised `domain.check` call is caught and yields
`status = "error"` with the exception text attached. -/
theorem c1_check_domain_structured (sess : Option (List Char))
    (loginResp checkResp : Except PyErr ApiResult) (domain : List Char)
    (h : isTruthy sess = true ∨ loginOkB loginResp = true) :
    ∃ res sess2,
      inwx_check_domain sess loginResp checkResp domain = .ok (res, sess2)
      ∧ (∀ e, checkResp = .error e →
          res = ⟨domain, false, chars "error", none, some e.msg⟩)
      ∧ (∀ r, checkResp = .ok r → r.code ≠ some 1000 →
          res = ⟨domain, false, chars "error", none, r.msg⟩) := by
  have hsess : ∃ s2, (if isTruthy sess then .ok sess else inwx_login loginResp :
      Except PyErr (Option (List Char))) = .ok s2 := by
    by_cases hs : isTruthy sess = true
    · exact ⟨sess, by simp [hs]⟩
    · rcases h with h | h
      · exact absurd h hs
      · obtain ⟨r, rfl, hr⟩ := inwx_login_ok _ h
        exact ⟨r.sessid, by simp [hs, hr]⟩
  obtain ⟨s2, hs2⟩ := hsess
  unfold inwx_check_domain
  rw [hs2]
  cases checkResp with
  | error e =>
    exact ⟨_, s2, rfl, fun e' he => by cases he; rfl, fun r hr => by cases hr⟩
  | ok r =>
    by_cases hc : (r.code == some 1000) = true
    · refine ⟨⟨domain, r.avail.getD 0 == 1,
        chars (if r.avail.getD 0 == 1 then "available" else "registered"),
        r.price, none⟩, s2, ?_, ?_, ?_⟩
      · simp [hc]
      · intro e' he
        cases he
      · intro r' hr hne
        cases hr
        exact absurd (by simpa using hc) hne
    · refine ⟨⟨domain, false, chars "error", none, r.msg⟩, s2, ?_, ?_, ?_⟩
      · simp [hc]
      · intro e' he
        cases he
      · intro r' hr _
        cases hr
        rfl

/-- C1 (witness): the amended theorem applied to a concrete established
session and a concrete non-1000 remote response. -/
theorem c1_witness :
    ∃ res sess2,
      inwx_check_domain (some (chars "s1"))
        (.ok ⟨some 1000, none, some (chars "s1"), none, none⟩)
        (.ok ⟨some 2303, some (chars "invalid domain"), none, none, none⟩)
        (chars "shop.de") = .ok (res, sess2)
      ∧ (∀ e, (.ok ⟨some 2303, some (chars "invalid domain"), none, none, none⟩ :
          Except PyErr ApiResult) = .error e →
          res = ⟨chars "shop.de", false, chars "error", none, some e.msg⟩)
      ∧ (∀ r, (.ok ⟨some 2303, some (chars "invalid domain"), none, none, none⟩ :
          Except PyErr ApiResult) = .ok r → r.code ≠ some 1000 →
          res = ⟨chars "shop.de", false, chars "error", none, r.msg⟩) :=
  c1_check_domain_structured (some (chars "s1"))
    (.ok ⟨some 1000, none, some (chars "s1"), none, none⟩)
    (.ok ⟨some 2303, some (chars "invalid domain"), none, none, none⟩)
    (chars "shop.de") (Or.inl (by decide))

/-- C2 (counterexample): with a successful login, a body that raises, and a
logout call that itself raises, the scope propagates the logout error and the
original body error is replaced, contradicting "a failure of the logout call
itself never masks or replaces the original error raised inside the scope". -/
theorem c2_counterexample :
    (inwx_scope (.ok ⟨some 1000, none, some (chars "s1"), none, none⟩)
        (fun sess => ((.error ⟨chars "body failed"⟩ : Except PyErr Unit), sess))
        (.error ⟨chars "logout failed"⟩)).1
      = .error ⟨chars "logout failed"⟩
    ∧ (inwx_scope (.ok ⟨some 1000, none, some (chars "s1"), none, none⟩)
        (fun sess => ((.error ⟨chars "body failed"⟩ : Except PyErr Unit), sess))
        (.error ⟨chars "logout failed"⟩)).1
      ≠ .error ⟨chars "body failed"⟩ := by
  constructor
  · rfl
  · intro h
    cases h

/-- C2 (amended): when entry login succeeds the logout method runs exactly
once on every exit path, including when the scoped body raises; when login
raises, logout never runs and the login error propagates; and when the logout
remote call raises, its error propagates and replaces the body outcome, while
otherwise the body outcome (value or error) is passed through unchanged. -/
theorem c2_scope_logout {α : Type} (loginResp logoutResp : Except PyErr ApiResult)
    (body : Option (List Char) → Except PyErr α × Option (List Char)) :
    ((inwx_scope loginResp body logoutResp).2 = if loginOkB loginResp then 1 else 0)
    ∧ (∀ e, inwx_login loginResp = .error e →
        inwx_scope loginResp body logoutResp = (.error e, 0))
    ∧ (∀ sess, inwx_login loginResp = .ok sess →
        (∀ e2, (inwx_logout (body sess).2 logoutResp).1 = .error e2 →
          (inwx_scope loginResp body logoutResp).1 = .error e2)
        ∧ ((inwx_logout (body sess).2 logoutResp).1 = .ok () →
          (inwx_scope loginResp body logoutResp).1 = (body sess).1)) := by
  refine ⟨?_, ?_, ?_⟩
  · by_cases h : loginOkB loginResp = true
    · obtain ⟨r, rfl, hr⟩ := inwx_login_ok _ h
      simp only [inwx_scope, hr, h, if_true]
      cases hlo : (inwx_logout (body r.sessid).2 logoutResp).1 <;> simp
    · have : ∃ e, inwx_login loginResp = .error e := by
        cases hresp : loginResp with
        | error e => exact ⟨e, rfl⟩
        | ok r =>
          refine ⟨⟨chars "INWX login failed: " ++ optMsgStr r.msg⟩, ?_⟩
          have hc : (r.code == some 1000) = false := by
            simpa [loginOkB, hresp] using h
          simp [inwx_login, hc]
      obtain ⟨e, he⟩ := this
      simp only [inwx_scope, he, h, if_false]
      simp
  · intro e he
    simp [inwx_scope, he]
  · intro sess hsess
    constructor
    · intro e2 he2
      simp [inwx_scope, hsess, he2]
    · intro hok
      simp [inwx_scope, hsess, hok]

/-- C2 (witness): the amended theorem at a concrete successful login, a body
raising `"original"`, and a logout call raising `"release failed"`: the logout
method ran once and the scope surfaced the logout error. -/
theorem c2_witness :
    ((inwx_scope (.ok ⟨some 1000, none, some (chars "s2"), none, none⟩)
        (fun sess => ((.error ⟨chars "original"⟩ : Except PyErr Unit), sess))
        (.error ⟨chars "release failed"⟩)).2 = 1)
    ∧ ((inwx_scope (.ok ⟨some 1000, none, some (chars "s2"), none, none⟩)
        (fun sess => ((.error ⟨chars "original"⟩ : Except PyErr Unit), sess))
        (.error ⟨chars "release failed"⟩)).1 = .error ⟨chars "release failed"⟩) := by
  have h := c2_scope_logout (α := Unit)
    (.ok ⟨some 1000, none, some (chars "s2"), none, none⟩)
    (.error ⟨chars "release failed"⟩)
    (fun sess => ((.error ⟨chars "original"⟩ : Except PyErr Unit), sess))
  refine ⟨by simpa using h.1, ?_⟩
  exact (h.2.2 (some (chars "s2")) rfl).1 ⟨chars "release failed"⟩ rfl

/-- The batch loop yields one result per input domain. -/
theorem check_domainsAux_length (inwx : Nat → Except PyErr CheckResult)
    (db : Nat → List Char → Except PyErr (Option TldData)) :
    ∀ (ds : List (List Char)) (i : Nat),
      (check_domainsAux inwx db i ds).length = ds.length := by
  intro ds
  induction ds with
  | nil => intro i; rfl
  | cons d rest ih =>
    intro i
    simp [check_domainsAux, ih (i + 1)]

/-- Each entry of the batch loop output is the per-item result of the
corresponding input domain, independent of the other items. -/
theorem check_domainsAux_getElem (inwx : Nat → Except PyErr CheckResult)
    (db : Nat → List Char → Except PyErr (Option TldData)) :
    ∀ (ds : List (List Char)) (i j : Nat) (hj : j < ds.length),
      (check_domainsAux inwx db i ds)[j]? =
        some (processOne (ds.get ⟨j, hj⟩) (inwx (i + j)) (db (i + j))) := by
  intro ds
  induction ds with
  | nil =>
    intro i j hj
    exact absurd hj (by simp)
  | cons d rest ih =>
    intro i j hj
    cases j with
    | zero =>
      have hhead : (match inwx i with
          | .error e => (⟨d, false, none, some e.msg⟩ : DomainCheckResult)
          | .ok ir =>
            match db i (lastDotComponent d) with
            | .error e => ⟨d, false, none, some e.msg⟩
            | .ok row => ⟨d, ir.avail, row.map (·.vk_eur), ir.error⟩)
          = processOne d (inwx i) (db i) := by
        cases hir : inwx i with
        | error e => simp [processOne]
        | ok ir =>
          cases hrow : db i (lastDotComponent d) with
          | error e => simp [processOne, hrow]
          | ok row => simp [processOne, hrow]
      simp [check_domainsAux, hhead]
    | succ j' =>
      have hj' : j' < rest.length := by simpa using hj
      have := ih (i + 1) j' hj'
      simp only [check_domainsAux, List.getElem?_cons_succ]
      rw [this]
      have harith : i + 1 + j' = i + (j' + 1) := by omega
      simp [harith]

/-- C7: provided the batch-wide registrar session opens and closes without
raising, the `/domains/check` endpoint returns exactly one result per input
domain (duplicates included), in input order, the i-th result being the
per-item outcome for the i-th input; a raised registrar call or price lookup
is caught per item, yielding `verfuegbar = false` with the message attached,
without affecting any other item. -/
theorem c7_batch_order_isolation (loginResp : Except PyErr ApiResult)
    (r0 : ApiResult) (inwx : Nat → Except PyErr CheckResult)
    (db : Nat → List Char → Except PyErr (Option TldData))
    (domains : List (List Char)) (hlogin : loginOkB loginResp = true) :
    ∃ results,
      api_check_domains loginResp (.ok r0) inwx db domains = .ok results
      ∧ results.length = domains.length
      ∧ (∀ j (hj : j < domains.length),
          results[j]? = some (processOne (domains.get ⟨j, hj⟩) (inwx j) (db j)))
      ∧ (∀ j (hj : j < domains.length) e, inwx j = .error e →
          results[j]? = some ⟨domains.get ⟨j, hj⟩, false, none, some e.msg⟩) := by
  obtain ⟨r, rfl, hr⟩ := inwx_login_ok _ hlogin
  refine ⟨check_domainsAux inwx db 0 domains, ?_, ?_, ?_, ?_⟩
  · unfold api_check_domains inwx_scope
    rw [hr]
    simp [inwx_logout_ok]
  · exact check_domainsAux_length inwx db domains 0
  · intro j hj
    simpa using check_domainsAux_getElem inwx db domains 0 j hj
  · intro j hj e he
    have := check_domainsAux_getElem inwx db domains 0 j hj
    simp only [Nat.zero_add] at this
    rw [this, he]
    rfl

/-- C7 (witness): a concrete two-domain batch in which the registrar call for
the first domain raises while the second succeeds: two results come back in
order, the first carrying the error, the second unaffected. -/
theorem c7_witness :
    ∃ results,
      api_check_domains (.ok ⟨some 1000, none, some (chars "s3"), none, none⟩)
        (.ok ⟨some 1000, none, none, none, none⟩)
        (fun i => if i = 0 then .error ⟨chars "boom"⟩
          else .ok ⟨chars "taken.de", false, chars "registered", none, none⟩)
        (fun _ _ => .ok (some ⟨chars "de", 10, 95⟩))
        [chars "free.de", chars "taken.de"] = .ok results
      ∧ results.length = [chars "free.de", chars "taken.de"].length
      ∧ (∀ j (hj : j < [chars "free.de", chars "taken.de"].length),
          results[j]? = some (processOne ([chars "free.de", chars "taken.de"].get ⟨j, hj⟩)
            ((fun i => if i = 0 then .error ⟨chars "boom"⟩
              else .ok ⟨chars "taken.de", false, chars "registered", none, none⟩) j)
            ((fun _ _ => .ok (some ⟨chars "de", 10, 95⟩)) j)))
      ∧ (∀ j (hj : j < [chars "free.de", chars "taken.de"].length) e,
          (fun i => if i = 0 then (.error ⟨chars "boom"⟩ : Except PyErr CheckResult)
            else .ok ⟨chars "taken.de", false, chars "registered", none, none⟩) j = .error e →
          results[j]? = some ⟨[chars "free.de", chars "taken.de"].get ⟨j, hj⟩,
            false, none, some e.msg⟩) :=
  c7_batch_order_isolation (.ok ⟨some 1000, none, some (chars "s3"), none, none⟩)
    ⟨some 1000, none, none, none, none⟩
    (fun i => if i = 0 then .error ⟨chars "boom"⟩
      else .ok ⟨chars "taken.de", false, chars "registered", none, none⟩)
    (fun _ _ => .ok (some ⟨chars "de", 10, 95⟩))
    [chars "free.de", chars "taken.de"] (by decide)

/-- Dropping the maximal dot-free run from a list containing a dot leaves the
first dot in front. -/
theorem dropWhile_ne_dot (l : List Char) (h : '.' ∈ l) :
    ∃ t, l.dropWhile (· != '.') = '.' :: t := by
  induction l with
  | nil => cases h
  | cons c rest ih =>
    by_cases hc : c = '.'
    · subst hc
      exact ⟨rest, by simp⟩
    · have hmem : '.' ∈ rest := by
        cases h with
        | head => exact absurd rfl hc
        | tail _ h' => exact h'
      obtain ⟨t, ht⟩ := ih hmem
      refine ⟨t, ?_⟩
      have : (c != '.') = true := by simpa using hc
      simp [List.dropWhile_cons, this, ht]

/-- `rsplit(".", 1)` of a string containing a dot: the two parts flank the
LAST dot, so the second part is dot-free and rejoining restores the input. -/
theorem rsplitDot_spec (s : List Char) (h : '.' ∈ s) :
    (rsplitDot s).1 ++ '.' :: (rsplitDot s).2 = s ∧ '.' ∉ (rsplitDot s).2 := by
  have hrev : '.' ∈ s.reverse := by simpa using h
  obtain ⟨t, ht⟩ := dropWhile_ne_dot s.reverse hrev
  have hsplit : s.reverse.takeWhile (· != '.') ++ '.' :: t = s.reverse := by
    conv_rhs => rw [← List.takeWhile_append_dropWhile (· != '.') s.reverse]
    rw [ht]
  constructor
  · have h1 : (rsplitDot s).1 = t.reverse := by
      simp [rsplitDot, ht]
    have h2 : (rsplitDot s).2 = (s.reverse.takeWhile (· != '.')).reverse := by
      simp [rsplitDot]
    rw [h1, h2]
    have hrevsplit := congrArg List.reverse hsplit
    simp only [List.reverse_append, List.reverse_cons, List.reverse_reverse] at hrevsplit
    calc t.reverse ++ '.' :: (List.takeWhile (fun x => x != '.') s.reverse).reverse
        = t.reverse ++ ['.'] ++ (List.takeWhile (fun x => x != '.') s.reverse).reverse := by
          simp
      _ = s := hrevsplit
  · intro hmem
    have hmem' : '.' ∈ s.reverse.takeWhile (· != '.') := by
      simpa [rsplitDot] using hmem
    have := List.mem_takeWhile_imp hmem'
    simp at this

/-- C8: registration rejects an unknown customer with 404, a domain without a
separator with 400, and an unsupported TLD with 400, and in all three cases no
registrar call happens and nothing is persisted (the event list is empty). -/
theorem c8_register_validation (kunde : Option Kunde)
    (tldLookup : List Char → Option TldData)
    (loginResp logoutResp : Except PyErr ApiResult)
    (newId kunden_id domain : List Char) :
    (kunde = none →
      api_register_domain kunde tldLookup loginResp logoutResp newId kunden_id domain
        = (.error (.http 404 (chars "Customer " ++ kunden_id ++ chars " not found")), []))
    ∧ (∀ k, kunde = some k → domain.contains '.' = false →
      api_register_domain kunde tldLookup loginResp logoutResp newId kunden_id domain
        = (.error (.http 400 (chars "Invalid domain format")), []))
    ∧ (∀ k, kunde = some k → domain.contains '.' = true →
        tldLookup (rsplitDot domain).2 = none →
      api_register_domain kunde tldLookup loginResp logoutResp newId kunden_id domain
        = (.error (.http 400 (chars "TLD " ++ (rsplitDot domain).2 ++
            chars " not supported")), [])) := by
  refine ⟨?_, ?_, ?_⟩
  · intro hk
    subst hk
    rfl
  · intro k hk hdot
    subst hk
    have hdot' : ¬ ('.' ∈ domain) := by simpa using hdot
    simp [api_register_domain, hdot']
  · intro k hk hdot htld
    subst hk
    have hdot' : '.' ∈ domain := by simpa using hdot
    simp [api_register_domain, hdot', htld]

/-- C8 (witness): the three rejections at concrete inputs: an unknown
customer, the separator-free domain `"shopde"`, and the unsupported TLD of
`"shop.zz"`. -/
theorem c8_witness :
    (api_register_domain none (fun _ => some ⟨chars "de", 10, 95⟩)
        (.ok ⟨some 1000, none, none, none, none⟩) (.ok ⟨some 1000, none, none, none, none⟩)
        (chars "id1") (chars "k1") (chars "shop.de")
      = (.error (.http 404 (chars "Customer " ++ chars "k1" ++ chars " not found")), []))
    ∧ (api_register_domain (some ⟨chars "k2"⟩) (fun _ => some ⟨chars "de", 10, 95⟩)
        (.ok ⟨some 1000, none, none, none, none⟩) (.ok ⟨some 1000, none, none, none, none⟩)
        (chars "id1") (chars "k2") (chars "shopde")
      = (.error (.http 400 (chars "Invalid domain format")), []))
    ∧ (api_register_domain (some ⟨chars "k3"⟩) (fun _ => none)
        (.ok ⟨some 1000, none, none, none, none⟩) (.ok ⟨some 1000, none, none, none, none⟩)
        (chars "id1") (chars "k3") (chars "shop.zz")
      = (.error (.http 400 (chars "TLD " ++ (rsplitDot (chars "shop.zz")).2 ++
          chars " not supported")), [])) := by
  refine ⟨?_, ?_, ?_⟩
  · exact (c8_register_validation none (fun _ => some ⟨chars "de", 10, 95⟩)
      (.ok ⟨some 1000, none, none, none, none⟩) (.ok ⟨some 1000, none, none, none, none⟩)
      (chars "id1") (chars "k1") (chars "shop.de")).1 rfl
  · exact (c8_register_validation (some ⟨chars "k2"⟩) (fun _ => some ⟨chars "de", 10, 95⟩)
      (.ok ⟨some 1000, none, none, none, none⟩) (.ok ⟨some 1000, none, none, none, none⟩)
      (chars "id1") (chars "k2") (chars "shopde")).2.1 ⟨chars "k2"⟩ rfl (by decide)
  · exact (c8_register_validation (some ⟨chars "k3"⟩) (fun _ => none)
      (.ok ⟨some 1000, none, none, none, none⟩) (.ok ⟨some 1000, none, none, none, none⟩)
      (chars "id1") (chars "k3") (chars "shop.zz")).2.2 ⟨chars "k3"⟩ rfl (by decide) rfl

/-- C9: for a registration that passes validation (customer found, dot
present, TLD supported) and whose registrar session opens and closes cleanly,
the flow splits the domain on the LAST dot, performs exactly one registrar
call and persists exactly one record carrying that base and TLD, the full
input domain, and status `"registered"` precisely when the registrar reported
success (`"failed"` otherwise), with no retry. -/
theorem c9_register_record (k : Kunde) (tldLookup : List Char → Option TldData)
    (loginResp : Except PyErr ApiResult) (r0 : ApiResult)
    (newId kunden_id domain : List Char) (td : TldData)
    (hdot : domain.contains '.' = true)
    (htld : tldLookup (rsplitDot domain).2 = some td)
    (hlogin : loginOkB loginResp = true) :
    ∃ rec0,
      api_register_domain (some k) tldLookup loginResp (.ok r0) newId kunden_id domain
        = (.ok ⟨(inwx_register_domain domain).success, rec0, none⟩,
           [.registrarCall domain, .persist rec0])
      ∧ rec0.wunschdomain = (rsplitDot domain).1
      ∧ rec0.tld = (rsplitDot domain).2
      ∧ rec0.vollstaendige_domain = domain
      ∧ rec0.wunschdomain ++ '.' :: rec0.tld = domain
      ∧ '.' ∉ rec0.tld
      ∧ (rec0.status = chars "registered" ↔ (inwx_register_domain domain).success = true)
      ∧ (rec0.status = chars "failed" ↔ (inwx_register_domain domain).success = false) := by
  obtain ⟨r, rfl, hr⟩ := inwx_login_ok _ hlogin
  have hdot' : '.' ∈ domain := by simpa using hdot
  obtain ⟨hsplit, hnodot⟩ := rsplitDot_spec domain hdot'
  refine ⟨⟨newId, kunden_id, (rsplitDot domain).fst, (rsplitDot domain).snd, domain,
    td.vk_eur,
    if (inwx_register_domain domain).success then chars "registered" else chars "failed",
    domain, inwx_register_domain domain⟩, ?_, rfl, rfl, rfl,
    hsplit, hnodot, ?_, ?_⟩
  · simp [api_register_domain, hdot', htld, hr, inwx_logout_ok]
  · simp [inwx_register_domain]
  · constructor
    · intro hs
      simp only [inwx_register_domain] at hs ⊢
      simp at hs
      exact absurd hs.symm (by decide)
    · intro hs
      simp [inwx_register_domain] at hs

/-- C9 (witness): registering `"my.company.de"` for an existing customer with
a supported TLD yields one registrar call and one persisted record with base
`"my.company"`, TLD `"de"`, the full domain, and status `"registered"`. -/
theorem c9_witness :
    ∃ rec0,
      api_register_domain (some ⟨chars "k9"⟩) (fun t => if t = chars "de" then
          some ⟨chars "de", 12, 95⟩ else none)
        (.ok ⟨some 1000, none, some (chars "s9"), none, none⟩)
        (.ok ⟨some 1000, none, none, none, none⟩)
        (chars "id9") (chars "k9") (chars "my.company.de")
        = (.ok ⟨(inwx_register_domain (chars "my.company.de")).success, rec0, none⟩,
           [.registrarCall (chars "my.company.de"), .persist rec0])
      ∧ rec0.wunschdomain = (rsplitDot (chars "my.company.de")).1
      ∧ rec0.tld = (rsplitDot (chars "my.company.de")).2
      ∧ rec0.vollstaendige_domain = chars "my.company.de"
      ∧ rec0.wunschdomain ++ '.' :: rec0.tld = chars "my.company.de"
      ∧ '.' ∉ rec0.tld
      ∧ (rec0.status = chars "registered" ↔
          (inwx_register_domain (chars "my.company.de")).success = true)
      ∧ (rec0.status = chars "failed" ↔
          (inwx_register_domain (chars "my.company.de")).success = false) :=
  c9_register_record ⟨chars "k9"⟩
    (fun t => if t = chars "de" then some ⟨chars "de", 12, 95⟩ else none)
    (.ok ⟨some 1000, none, some (chars "s9"), none, none⟩)
    ⟨some 1000, none, none, none, none⟩
    (chars "id9") (chars "k9") (chars "my.company.de") ⟨chars "de", 12, 95⟩
    (by decide) (by decide) (by decide)

/-- Everything the inner loop adds is built by `mkSuggestion` from one of its
TLDs. -/
theorem addTlds_mem (cb v : List Char) (maxS : Nat) :
    ∀ (ts : List TldData) (acc : List DomainSuggestion) (s : DomainSuggestion),
      s ∈ addTlds cb v maxS ts acc → s ∈ acc ∨ ∃ t ∈ ts, s = mkSuggestion cb v t := by
  intro ts
  induction ts with
  | nil =>
    intro acc s hs
    exact Or.inl hs
  | cons t ts' ih =>
    intro acc s hs
    simp only [addTlds] at hs
    by_cases hlen : maxS ≤ acc.length
    · rw [if_pos hlen] at hs
      exact Or.inl hs
    · rw [if_neg hlen] at hs
      rcases ih _ _ hs with h | ⟨t', ht', rfl⟩
      · rcases List.mem_append.mp h with h | h
        · exact Or.inl h
        · refine Or.inr ⟨t, List.mem_cons_self t ts', ?_⟩
          simpa using h
      · exact Or.inr ⟨t', List.mem_cons_of_mem t ht', rfl⟩

/-- The inner loop size: it fills up to `maxS`, adding one suggestion per TLD. -/
theorem addTlds_length (cb v : List Char) (maxS : Nat) :
    ∀ (ts : List TldData) (acc : List DomainSuggestion), acc.length ≤ maxS →
      (addTlds cb v maxS ts acc).length = min (acc.length + ts.length) maxS := by
  intro ts
  induction ts with
  | nil =>
    intro acc hacc
    simp only [addTlds, List.length_nil]
    omega
  | cons t ts' ih =>
    intro acc hacc
    simp only [addTlds]
    by_cases hlen : maxS ≤ acc.length
    · rw [if_pos hlen]
      simp only [List.length_cons]
      omega
    · rw [if_neg hlen]
      have := ih (acc ++ [mkSuggestion cb v t]) (by simp; omega)
      rw [this]
      have hlen1 : (acc ++ [mkSuggestion cb v t]).length = acc.length + 1 := by simp
      rw [hlen1]
      simp only [List.length_cons]
      omega

/-- Everything the outer loop adds is built by `mkSuggestion` from one of its
variations and TLDs. -/
theorem addVariations_mem (cb : List Char) (tlds : List TldData) (maxS : Nat) :
    ∀ (vs : List (List Char)) (acc : List DomainSuggestion) (s : DomainSuggestion),
      s ∈ addVariations cb tlds maxS vs acc →
        s ∈ acc ∨ ∃ v ∈ vs, ∃ t ∈ tlds, s = mkSuggestion cb v t := by
  intro vs
  induction vs with
  | nil =>
    intro acc s hs
    exact Or.inl hs
  | cons v vs' ih =>
    intro acc s hs
    simp only [addVariations] at hs
    by_cases hlen : maxS ≤ (addTlds cb v maxS tlds acc).length
    · rw [if_pos hlen] at hs
      rcases addTlds_mem cb v maxS tlds acc s hs with h | ⟨t, ht, rfl⟩
      · exact Or.inl h
      · exact Or.inr ⟨v, List.mem_cons_self v vs', t, ht, rfl⟩
    · rw [if_neg hlen] at hs
      rcases ih _ _ hs with h | ⟨v', hv', t, ht, rfl⟩
      · rcases addTlds_mem cb v maxS tlds acc s h with h' | ⟨t, ht, rfl⟩
        · exact Or.inl h'
        · exact Or.inr ⟨v, List.mem_cons_self v vs', t, ht, rfl⟩
      · exact Or.inr ⟨v', List.mem_cons_of_mem v hv', t, ht, rfl⟩

/-- The outer loop size: the batch holds min(variations kept × TLDs, cap). -/
theorem addVariations_length (cb : List Char) (tlds : List TldData) (maxS : Nat) :
    ∀ (vs : List (List Char)) (acc : List DomainSuggestion), acc.length ≤ maxS →
      (addVariations cb tlds maxS vs acc).length =
        min (acc.length + vs.length * tlds.length) maxS := by
  intro vs
  induction vs with
  | nil =>
    intro acc hacc
    simp only [addVariations, List.length_nil]
    omega
  | cons v vs' ih =>
    intro acc hacc
    simp only [addVariations]
    have hacc2 : (addTlds cb v maxS tlds acc).length = min (acc.length + tlds.length) maxS :=
      addTlds_length cb v maxS tlds acc hacc
    by_cases hlen : maxS ≤ (addTlds cb v maxS tlds acc).length
    · rw [if_pos hlen]
      rw [hacc2] at hlen ⊢
      simp only [List.length_cons, Nat.succ_mul]
      omega
    · rw [if_neg hlen]
      have hle : (addTlds cb v maxS tlds acc).length ≤ maxS := by omega
      rw [ih _ hle, hacc2]
      simp only [List.length_cons, Nat.succ_mul]
      omega

/-- `generate_suggestions` with its let-bindings expanded. -/
theorem generate_suggestions_eq (basis : List Char) (branche : Option (List Char))
    (tlds : List TldData) (maxS : Nat) :
    generate_suggestions basis branche tlds maxS =
      (sortSuggestions (addVariations (clean_domain_name basis) tlds maxS
        ((generate_variations (clean_domain_name basis) branche).take 5) [])).take maxS :=
  rfl

/-- Every returned suggestion comes from combining one of the first five
variations with one of the fetched TLDs. -/
theorem generate_suggestions_mem (basis : List Char) (branche : Option (List Char))
    (tlds : List TldData) (maxS : Nat) (s : DomainSuggestion)
    (hs : s ∈ generate_suggestions basis branche tlds maxS) :
    ∃ v ∈ (generate_variations (clean_domain_name basis) branche).take 5,
      ∃ t ∈ tlds, s = mkSuggestion (clean_domain_name basis) v t := by
  rw [generate_suggestions_eq] at hs
  have h1 : s ∈ sortSuggestions (addVariations (clean_domain_name basis) tlds maxS
      ((generate_variations (clean_domain_name basis) branche).take 5) []) :=
    (List.take_sublist _ _).subset hs
  have h2 : s ∈ addVariations (clean_domain_name basis) tlds maxS
      ((generate_variations (clean_domain_name basis) branche).take 5) [] :=
    (List.perm_insertionSort suggBefore _).mem_iff.mp h1
  rcases addVariations_mem _ _ _ _ _ _ h2 with h | h
  · cases h
  · exact h

/-- C4: a returned suggestion is recommended exactly when its domain is the
unmodified normalized base joined with its TLD and that TLD's priority is at
least 90. -/
theorem c4_recommended_iff (basis : List Char) (branche : Option (List Char))
    (tlds : List TldData) (maxS : Nat) (s : DomainSuggestion)
    (hs : s ∈ generate_suggestions basis branche tlds maxS) :
    s.empfohlen = true ↔
      (s.domain = clean_domain_name basis ++ '.' :: s.tld ∧ 90 ≤ s.prio) := by
  obtain ⟨v, hv, t, ht, rfl⟩ := generate_suggestions_mem basis branche tlds maxS s hs
  constructor
  · intro h
    simp only [mkSuggestion, Bool.and_eq_true, beq_iff_eq, decide_eq_true_eq] at h
    obtain ⟨h1, h2⟩ := h
    subst h1
    exact ⟨rfl, h2⟩
  · rintro ⟨h1, h2⟩
    simp only [mkSuggestion] at h1 h2 ⊢
    have hv' : v = clean_domain_name basis := List.append_cancel_right h1
    simp [hv', h2]

/-- C4 (witness): with base `"shop"` and TLD priorities exactly 90 and 89, the
suggestion on the unmodified base with priority 90 is recommended and the one
with priority 89 is not (both directions of the characterization hold on
them). -/
theorem c4_witness :
    ((⟨chars "shop.de", chars "de", none, 10, 90, true⟩ : DomainSuggestion) ∈
        generate_suggestions (chars "shop") none
          [⟨chars "de", 10, 90⟩, ⟨chars "com", 12, 89⟩] 10
      ∧ ((⟨chars "shop.de", chars "de", none, 10, 90, true⟩ : DomainSuggestion).empfohlen
          = true ↔
        ((⟨chars "shop.de", chars "de", none, 10, 90, true⟩ : DomainSuggestion).domain
            = clean_domain_name (chars "shop") ++ '.' ::
              (⟨chars "shop.de", chars "de", none, 10, 90, true⟩ : DomainSuggestion).tld
          ∧ 90 ≤ (⟨chars "shop.de", chars "de", none, 10, 90, true⟩ : DomainSuggestion).prio)))
    ∧ ((⟨chars "shop.com", chars "com", none, 12, 89, false⟩ : DomainSuggestion) ∈
        generate_suggestions (chars "shop") none
          [⟨chars "de", 10, 90⟩, ⟨chars "com", 12, 89⟩] 10
      ∧ ((⟨chars "shop.com", chars "com", none, 12, 89, false⟩ : DomainSuggestion).empfohlen
          = true ↔
        ((⟨chars "shop.com", chars "com", none, 12, 89, false⟩ : DomainSuggestion).domain
            = clean_domain_name (chars "shop") ++ '.' ::
              (⟨chars "shop.com", chars "com", none, 12, 89, false⟩ : DomainSuggestion).tld
          ∧ 90 ≤ (⟨chars "shop.com", chars "com", none, 12, 89, false⟩ : DomainSuggestion).prio))) :=
  ⟨⟨by decide, c4_recommended_iff (chars "shop") none
      [⟨chars "de", 10, 90⟩, ⟨chars "com", 12, 89⟩] 10 _ (by decide)⟩,
   ⟨by decide, c4_recommended_iff (chars "shop") none
      [⟨chars "de", 10, 90⟩, ⟨chars "com", 12, 89⟩] 10 _ (by decide)⟩⟩

/-- C5: the ranking order invariant — for any suggestion A positioned before
B in the output, either A is recommended and B is not, or they carry equal
recommended flags and A's priority is at least B's (the output is sorted
ascending by the stable key (not recommended, negated priority)). -/
theorem c5_ranking_order (basis : List Char) (branche : Option (List Char))
    (tlds : List TldData) (maxS : Nat) :
    List.Pairwise (fun a b : DomainSuggestion =>
        (a.empfohlen = true ∧ b.empfohlen = false) ∨
        (a.empfohlen = b.empfohlen ∧ b.prio ≤ a.prio))
      (generate_suggestions basis branche tlds maxS) := by
  rw [generate_suggestions_eq]
  have hsorted : List.Pairwise suggBefore (sortSuggestions
      (addVariations (clean_domain_name basis) tlds maxS
        ((generate_variations (clean_domain_name basis) branche).take 5) [])) :=
    List.sorted_insertionSort suggBefore _
  have himp : List.Pairwise (fun a b : DomainSuggestion =>
      (a.empfohlen = true ∧ b.empfohlen = false) ∨
      (a.empfohlen = b.empfohlen ∧ b.prio ≤ a.prio)) (sortSuggestions
        (addVariations (clean_domain_name basis) tlds maxS
          ((generate_variations (clean_domain_name basis) branche).take 5) [])) := by
    refine hsorted.imp ?_
    intro a b hab
    unfold suggBefore suggLE at hab
    cases ha : a.empfohlen <;> cases hb : b.empfohlen <;>
      simp [ha, hb] at hab ⊢
    · exact hab
    · exact hab
  exact himp.sublist (List.take_sublist maxS _)

/-- C6: the engine returns exactly `min(C, maxSuggestions)` suggestions,
where `C` is the number of first-at-most-5 variations times the number of
fetched TLDs; moreover every returned suggestion is a combination of one of
those first five variations with one of the fetched TLDs. -/
theorem c6_result_size (basis : List Char) (branche : Option (List Char))
    (tlds : List TldData) (maxS : Nat) :
    (generate_suggestions basis branche tlds maxS).length =
      min (((generate_variations (clean_domain_name basis) branche).take 5).length *
        tlds.length) maxS
    ∧ ∀ s ∈ generate_suggestions basis branche tlds maxS,
        ∃ v ∈ (generate_variations (clean_domain_name basis) branche).take 5,
          ∃ t ∈ tlds, s = mkSuggestion (clean_domain_name basis) v t := by
  constructor
  · rw [generate_suggestions_eq]
    rw [List.length_take]
    have hsortlen : (sortSuggestions (addVariations (clean_domain_name basis) tlds maxS
        ((generate_variations (clean_domain_name basis) branche).take 5) [])).length =
        (addVariations (clean_domain_name basis) tlds maxS
          ((generate_variations (clean_domain_name basis) branche).take 5) []).length :=
      List.length_insertionSort _ _
    rw [hsortlen]
    rw [addVariations_length (clean_domain_name basis) tlds maxS
      ((generate_variations (clean_domain_name basis) branche).take 5) [] (by simp)]
    simp only [List.length_nil, Nat.zero_add]
    omega
  · exact fun s hs => generate_suggestions_mem basis branche tlds maxS s hs

/-- C6 (witness): the size equation instantiated and its membership clause
applied to a member of a concrete run (4 variations of `"shop"`, 2 TLDs,
cap 3: exactly min(8, 3) = 3 suggestions). -/
theorem c6_witness :
    ((generate_suggestions (chars "shop") none
        [⟨chars "de", 10, 90⟩, ⟨chars "com", 12, 89⟩] 3).length =
      min (((generate_variations (clean_domain_name (chars "shop")) none).take 5).length *
        [⟨chars "de", 10, 90⟩, (⟨chars "com", 12, 89⟩ : TldData)].length) 3)
    ∧ (∃ v ∈ (generate_variations (clean_domain_name (chars "shop")) none).take 5,
        ∃ t ∈ [⟨chars "de", 10, 90⟩, (⟨chars "com", 12, 89⟩ : TldData)],
          (⟨chars "shop.de", chars "de", none, 10, 90, true⟩ : DomainSuggestion) =
            mkSuggestion (clean_domain_name (chars "shop")) v t) :=
  ⟨(c6_result_size (chars "shop") none
      [⟨chars "de", 10, 90⟩, ⟨chars "com", 12, 89⟩] 3).1,
   (c6_result_size (chars "shop") none
      [⟨chars "de", 10, 90⟩, ⟨chars "com", 12, 89⟩] 3).2
      ⟨chars "shop.de", chars "de", none, 10, 90, true⟩ (by decide)⟩

/-! ## Normalizer invariants -/

/-- A clean character is a lowercase letter, a digit, or the hyphen. -/
theorem clean_char_cases (c : Char) (h : isCleanChar c = true) :
    (97 ≤ c.toNat ∧ c.toNat ≤ 122) ∨ (48 ≤ c.toNat ∧ c.toNat ≤ 57) ∨ c = '-' := by
  simp only [isCleanChar, Bool.or_eq_true, Bool.and_eq_true, decide_eq_true_eq,
    beq_iff_eq] at h
  tauto

/-- Clean characters are ASCII. -/
theorem clean_char_ascii (c : Char) (h : isCleanChar c = true) : c.toNat ≤ 127 := by
  rcases clean_char_cases c h with h | h | h
  · omega
  · omega
  · subst h
    decide

/-- The code point of a whitespace character. -/
theorem pySpace_toNat (c : Char) (h : isPySpace c = true) :
    c.toNat = 32 ∨ c.toNat = 9 ∨ c.toNat = 10 ∨ c.toNat = 11 ∨
      c.toNat = 12 ∨ c.toNat = 13 := by
  simp only [isPySpace, Bool.or_eq_true, beq_iff_eq] at h
  tauto

/-- A clean character that lies in the whitespace/hyphen class is the hyphen. -/
theorem clean_sh_eq_hyphen (c : Char) (h : isCleanChar c = true)
    (hsh : isSpaceHyphen c = true) : c = '-' := by
  have hsh' := hsh
  simp only [isSpaceHyphen, Bool.or_eq_true, beq_iff_eq] at hsh'
  rcases hsh' with hs | hs
  · exfalso
    rcases clean_char_cases c h with hc | hc | hc
    · rcases pySpace_toNat c hs with h1 | h1 | h1 | h1 | h1 | h1 <;> omega
    · rcases pySpace_toNat c hs with h1 | h1 | h1 | h1 | h1 | h1 <;> omega
    · subst hc
      exact absurd hs (by decide)
  · exact hs

/-- A kept character outside the whitespace/hyphen class is clean. -/
theorem keep_not_sh_clean (c : Char) (h1 : keepChar c = true)
    (h2 : isSpaceHyphen c = false) : isCleanChar c = true := by
  have h2' := h2
  simp only [isSpaceHyphen, Bool.or_eq_false_iff] at h2'
  unfold keepChar at h1
  rw [h2'.1] at h1
  unfold isCleanChar
  simpa using h1

/-- Clean characters pass the illegal-character filter. -/
theorem clean_keep (c : Char) (h : isCleanChar c = true) : keepChar c = true := by
  unfold isCleanChar at h
  unfold keepChar
  rcases (Bool.or_eq_true _ _).mp h with h' | h'
  · simp [h']
  · simp [h']

/-- Lower-casing fixes clean characters. -/
theorem pyLower_fixed (c : Char) (h : isCleanChar c = true) : pyLowerChar c = c := by
  unfold pyLowerChar
  rcases clean_char_cases c h with hc | hc | hc
  · rw [if_neg (by simp; omega)]
  · rw [if_neg (by simp; omega)]
  · subst hc
    decide

/-- Transliteration fixes ASCII text. -/
theorem unidecode_fixed (l : List Char) (h : ∀ c ∈ l, c.toNat ≤ 127) :
    unidecode l = l := by
  induction l with
  | nil => rfl
  | cons c rest ih =>
    have hc : unidecodeChar c = [c] := by
      unfold unidecodeChar
      rw [if_pos (h c (List.mem_cons_self c rest))]
    simp only [unidecode, hc, List.cons_append, List.nil_append]
    rw [ih (fun d hd => h d (List.mem_cons_of_mem c hd))]

/-- `noDoubleHyphen` only constrains adjacent pairs, so it passes to the tail. -/
theorem ndh_tail (a : Char) (l : List Char) (h : noDoubleHyphen (a :: l) = true) :
    noDoubleHyphen l = true := by
  cases l with
  | nil => rfl
  | cons b rest =>
    simp only [noDoubleHyphen, Bool.and_eq_true] at h
    exact h.2

/-- Extending a `noDoubleHyphen` list with a head whose successor is compatible. -/
theorem ndh_cons (a : Char) (l : List Char) (hl : noDoubleHyphen l = true)
    (h : ∀ x xs, l = x :: xs → (a == '-' && x == '-') = false) :
    noDoubleHyphen (a :: l) = true := by
  cases l with
  | nil => rfl
  | cons b rest =>
    simp only [noDoubleHyphen, Bool.and_eq_true]
    exact ⟨by simp [h b rest rfl], hl⟩

/-- Each output character of the collapsing step is a hyphen or an input
character outside the whitespace/hyphen class. -/
theorem collapseAux_mem (l : List Char) :
    ∀ (b : Bool) (c : Char), c ∈ collapseAux b l →
      c = '-' ∨ (c ∈ l ∧ isSpaceHyphen c = false) := by
  induction l with
  | nil =>
    intro b c hc
    cases hc
  | cons d rest ih =>
    intro b c hc
    simp only [collapseAux] at hc
    by_cases hd : isSpaceHyphen d = true
    · rw [if_pos hd] at hc
      rcases List.mem_append.mp hc with h | h
      · left
        cases b with
        | true => cases h
        | false => simpa using h
      · rcases ih true c h with h' | ⟨hmem, hnsh⟩
        · exact Or.inl h'
        · exact Or.inr ⟨List.mem_cons_of_mem d hmem, hnsh⟩
    · rw [if_neg hd] at hc
      rcases List.mem_cons.mp hc with h | h
      · subst h
        exact Or.inr ⟨List.mem_cons_self c rest, by simpa using hd⟩
      · rcases ih false c h with h' | ⟨hmem, hnsh⟩
        · exact Or.inl h'
        · exact Or.inr ⟨List.mem_cons_of_mem d hmem, hnsh⟩

/-- In the run state, the collapser next emits a non-run character (if any). -/
theorem collapseAux_head_true (l : List Char) :
    ∀ (c : Char) (cs : List Char), collapseAux true l = c :: cs →
      isSpaceHyphen c = false := by
  induction l with
  | nil =>
    intro c cs h
    cases h
  | cons d rest ih =>
    intro c cs h
    simp only [collapseAux] at h
    by_cases hd : isSpaceHyphen d = true
    · rw [if_pos hd] at h
      exact ih c cs h
    · rw [if_neg hd] at h
      cases h
      simpa using hd

/-- The collapsing step never emits two adjacent hyphens. -/
theorem collapseAux_ndh (l : List Char) :
    ∀ b : Bool, noDoubleHyphen (collapseAux b l) = true := by
  induction l with
  | nil =>
    intro b
    rfl
  | cons d rest ih =>
    intro b
    simp only [collapseAux]
    by_cases hd : isSpaceHyphen d = true
    · rw [if_pos hd]
      cases b with
      | true =>
        show noDoubleHyphen ([] ++ collapseAux true rest) = true
        rw [List.nil_append]
        exact ih true
      | false =>
        show noDoubleHyphen (['-'] ++ collapseAux true rest) = true
        rw [List.singleton_append]
        refine ndh_cons '-' _ (ih true) ?_
        intro x xs hx
        have hhead := collapseAux_head_true rest x xs hx
        have hxne : ¬ x = '-' := by
          intro hxx
          subst hxx
          exact absurd hhead (by decide)
        have hx' : (x == '-') = false := by simpa using hxne
        rw [hx', Bool.and_false]
    · rw [if_neg hd]
      refine ndh_cons d _ (ih false) ?_
      intro x xs hx
      have hdne : ¬ d = '-' := by
        intro hdd
        subst hdd
        exact hd (by decide)
      have hd' : (d == '-') = false := by simpa using hdne
      rw [hd', Bool.false_and]

/-- `noDoubleHyphen` as a chain of compatible adjacent pairs. -/
theorem ndh_iff_chain (l : List Char) :
    noDoubleHyphen l = true ↔ List.Chain' (fun a b => ¬(a = '-' ∧ b = '-')) l := by
  induction l with
  | nil => simp [noDoubleHyphen]
  | cons a rest ih =>
    cases rest with
    | nil => simp [noDoubleHyphen]
    | cons b rest2 =>
      rw [List.chain'_cons]
      simp only [noDoubleHyphen, Bool.and_eq_true] at ih ⊢
      constructor
      · rintro ⟨h1, h2⟩
        refine ⟨?_, ih.mp h2⟩
        simp only [Bool.not_eq_eq_eq_not, Bool.not_true, Bool.and_eq_false_iff] at h1
        rintro ⟨rfl, rfl⟩
        rcases h1 with h1 | h1 <;> simp at h1
      · rintro ⟨h1, h2⟩
        refine ⟨?_, ih.mpr h2⟩
        by_cases ha : a = '-'
        · by_cases hb : b = '-'
          · exact absurd ⟨ha, hb⟩ h1
          · subst ha
            simp [hb]
        · simp [ha]

/-- `noDoubleHyphen` survives reversal. -/
theorem ndh_reverse (l : List Char) (h : noDoubleHyphen l = true) :
    noDoubleHyphen l.reverse = true := by
  rw [ndh_iff_chain] at h ⊢
  rw [List.chain'_reverse]
  exact h.imp (fun a b hab hc => hab ⟨hc.2, hc.1⟩)

/-- `noDoubleHyphen` survives dropping a head run. -/
theorem ndh_dropWhile (p : Char → Bool) (l : List Char)
    (h : noDoubleHyphen l = true) : noDoubleHyphen (l.dropWhile p) = true := by
  induction l with
  | nil => exact h
  | cons c rest ih =>
    rw [List.dropWhile_cons]
    by_cases hc : p c = true
    · rw [if_pos hc]
      exact ih (ndh_tail c rest h)
    · rw [if_neg hc]
      exact h

/-- The head surviving `dropWhile` does not satisfy the predicate. -/
theorem head?_dropWhile_ne (p : Char → Bool) (l : List Char) (c : Char)
    (h : (l.dropWhile p).head? = some c) : p c = false := by
  have h' := List.head?_dropWhile_not p l
  rw [h] at h'
  exact h'

/-- Trimming edge hyphens leaves no leading hyphen. -/
theorem stripHyphens_head (l : List Char) : (stripHyphens l).head? ≠ some '-' := by
  intro h
  unfold stripHyphens at h
  rw [List.head?_reverse] at h
  set X := (l.dropWhile (· == '-')).reverse.dropWhile (· == '-') with hX
  cases hXc : X with
  | nil =>
    rw [hXc] at h
    cases h
  | cons x xs =>
    have h1 : List.takeWhile (· == '-') (l.dropWhile (· == '-')).reverse ++ X =
        (l.dropWhile (· == '-')).reverse := by
      rw [hX]
      exact List.takeWhile_append_dropWhile (· == '-') _
    have h2 : X.getLast? = ((l.dropWhile (· == '-')).reverse).getLast? := by
      rw [← h1, List.getLast?_append, hXc]
      cases hgl : (x :: xs).getLast? with
      | none =>
        exact absurd (List.getLast?_eq_none_iff.mp hgl) (by simp)
      | some v =>
        rw [Option.or_some]
    rw [h2, List.getLast?_reverse] at h
    have := head?_dropWhile_ne (· == '-') l '-' h
    simp at this

/-- Trimming edge hyphens leaves no trailing hyphen. -/
theorem stripHyphens_last (l : List Char) : (stripHyphens l).getLast? ≠ some '-' := by
  intro h
  unfold stripHyphens at h
  rw [List.getLast?_reverse] at h
  have := head?_dropWhile_ne (· == '-') (l.dropWhile (· == '-')).reverse '-' h
  simp at this

/-- Characters of the trimmed list come from the original list. -/
theorem stripHyphens_subset (l : List Char) (c : Char) (h : c ∈ stripHyphens l) :
    c ∈ l := by
  unfold stripHyphens at h
  rw [List.mem_reverse] at h
  have h1 := (List.dropWhile_sublist (· == '-')).subset h
  rw [List.mem_reverse] at h1
  exact (List.dropWhile_sublist (· == '-')).subset h1

/-- Trimming preserves the no-double-hyphen invariant. -/
theorem stripHyphens_ndh (l : List Char) (h : noDoubleHyphen l = true) :
    noDoubleHyphen (stripHyphens l) = true := by
  unfold stripHyphens
  exact ndh_reverse _ (ndh_dropWhile _ _ (ndh_reverse _ (ndh_dropWhile _ _ h)))

/-- The normalized output invariant: only clean characters, no double hyphen,
no edge hyphen. -/
theorem clean_invariant (name : List Char) :
    (∀ c ∈ clean_domain_name name, isCleanChar c = true)
    ∧ noDoubleHyphen (clean_domain_name name) = true
    ∧ (clean_domain_name name).head? ≠ some '-'
    ∧ (clean_domain_name name).getLast? ≠ some '-' := by
  refine ⟨?_, ?_, stripHyphens_head _, stripHyphens_last _⟩
  · intro c hc
    have hcoll : c ∈ collapseRuns (stripIllegal (removeSuffixes
        (List.map pyLowerChar (unidecode name)))) := stripHyphens_subset _ c hc
    rcases collapseAux_mem _ false c hcoll with h | ⟨hmem, hnsh⟩
    · subst h
      decide
    · have hkeep : keepChar c = true := (List.mem_filter.mp hmem).2
      exact keep_not_sh_clean c hkeep hnsh
  · exact stripHyphens_ndh _ (collapseAux_ndh _ false)

/-- C10: every output of the normalizer consists only of lowercase ASCII
letters, digits and hyphens, contains no two consecutive hyphens, and neither
starts nor ends with a hyphen. -/
theorem c10_clean_output_shape (name : List Char) :
    (clean_domain_name name).all isCleanChar = true
    ∧ noDoubleHyphen (clean_domain_name name) = true
    ∧ (clean_domain_name name).head? ≠ some '-'
    ∧ (clean_domain_name name).getLast? ≠ some '-' := by
  obtain ⟨h1, h2, h3, h4⟩ := clean_invariant name
  exact ⟨List.all_eq_true.mpr h1, h2, h3, h4⟩

/-- Lower-casing fixes clean text. -/
theorem map_pyLower_fixed (l : List Char) (h : ∀ c ∈ l, isCleanChar c = true) :
    l.map pyLowerChar = l := by
  induction l with
  | nil => rfl
  | cons c rest ih =>
    simp only [List.map_cons]
    rw [pyLower_fixed c (h c (List.mem_cons_self c rest)),
      ih (fun d hd => h d (List.mem_cons_of_mem c hd))]

/-- Collapsing fixes clean text with no double hyphen. -/
theorem collapseAux_fixed : ∀ (l : List Char), (∀ c ∈ l, isCleanChar c = true) →
    noDoubleHyphen l = true → collapseAux false l = l := by
  intro l
  induction l with
  | nil =>
    intro _ _
    rfl
  | cons c rest ih =>
    intro hall hndh
    simp only [collapseAux]
    by_cases hc : isSpaceHyphen c = true
    · rw [if_pos hc]
      have hc' : c = '-' := clean_sh_eq_hyphen c (hall c (List.mem_cons_self c rest)) hc
      subst hc'
      show ['-'] ++ collapseAux true rest = '-' :: rest
      rw [List.singleton_append]
      congr 1
      cases rest with
      | nil => rfl
      | cons d r2 =>
        have hdne : d ≠ '-' := by
          intro hdd
          subst hdd
          simp [noDoubleHyphen] at hndh
        have hd : isSpaceHyphen d = false := by
          rcases Bool.eq_false_or_eq_true (isSpaceHyphen d) with h' | h'
          · exact absurd (clean_sh_eq_hyphen d (hall d (by simp)) h') hdne
          · exact h'
        have e1 : collapseAux true (d :: r2) = d :: collapseAux false r2 := by
          simp only [collapseAux]
          rw [if_neg (by simp [hd])]
        have e2 : collapseAux false (d :: r2) = d :: collapseAux false r2 := by
          simp only [collapseAux]
          rw [if_neg (by simp [hd])]
        rw [e1, ← e2]
        exact ih (fun x hx => hall x (List.mem_cons_of_mem _ hx)) (ndh_tail _ _ hndh)
    · rw [if_neg hc]
      congr 1
      exact ih (fun x hx => hall x (List.mem_cons_of_mem _ hx)) (ndh_tail _ _ hndh)

/-- Dropping leading hyphens fixes a list that does not start with one. -/
theorem dropWhile_hyphen_id (l : List Char) (h : l.head? ≠ some '-') :
    l.dropWhile (· == '-') = l := by
  cases l with
  | nil => rfl
  | cons c rest =>
    have hc : ¬ c = '-' := by
      intro hcc
      subst hcc
      exact h rfl
    rw [List.dropWhile_cons_of_neg (by simpa using hc)]

/-- Trimming fixes a list with no edge hyphens. -/
theorem stripHyphens_fixed (l : List Char) (h1 : l.head? ≠ some '-')
    (h2 : l.getLast? ≠ some '-') : stripHyphens l = l := by
  unfold stripHyphens
  rw [dropWhile_hyphen_id l h1]
  have hrev : l.reverse.head? ≠ some '-' := by
    rw [List.head?_reverse]
    exact h2
  rw [dropWhile_hyphen_id l.reverse hrev, List.reverse_reverse]

/-- C3 (counterexample): normalization is not idempotent.  Stripping the
illegal character from `"a!g"` creates the new legal-suffix word `"ag"`, which
only a second normalization pass removes:
`normalize("a!g") = "ag"` but `normalize("ag") = ""`. -/
theorem c3_counterexample :
    clean_domain_name (clean_domain_name (chars "a!g")) ≠
      clean_domain_name (chars "a!g") := by
  decide

/-- C3 (amended): normalization is idempotent on every input whose normalized
form is left unchanged by the legal-suffix-removal step; since suffix removal
runs before illegal characters are stripped, stripping can create a fresh
suffix word on which a second pass differs, so the unconditional claim fails. -/
theorem c3_idempotent_unless_new_suffix (x : List Char)
    (h : removeSuffixes (clean_domain_name x) = clean_domain_name x) :
    clean_domain_name (clean_domain_name x) = clean_domain_name x := by
  obtain ⟨hall, hndh, hhead, hlast⟩ := clean_invariant x
  have hascii : ∀ c ∈ clean_domain_name x, c.toNat ≤ 127 :=
    fun c hc => clean_char_ascii c (hall c hc)
  have huni : unidecode (clean_domain_name x) = clean_domain_name x :=
    unidecode_fixed _ hascii
  have hlower : (clean_domain_name x).map pyLowerChar = clean_domain_name x :=
    map_pyLower_fixed _ hall
  have hfilter : stripIllegal (clean_domain_name x) = clean_domain_name x :=
    List.filter_eq_self.mpr (fun a ha => clean_keep a (hall a ha))
  have hcoll : collapseRuns (clean_domain_name x) = clean_domain_name x :=
    collapseAux_fixed _ hall hndh
  have hstrip : stripHyphens (clean_domain_name x) = clean_domain_name x :=
    stripHyphens_fixed _ hhead hlast
  show stripHyphens (collapseRuns (stripIllegal (removeSuffixes
    ((unidecode (clean_domain_name x)).map pyLowerChar)))) = clean_domain_name x
  rw [huni, hlower, h, hfilter, hcoll, hstrip]

/-- C3 (witness): the amended idempotence applied to `"Hello World!"`, whose
normalized form `"hello-world"` contains no legal-suffix word. -/
theorem c3_witness :
    removeSuffixes (clean_domain_name (chars "Hello World!")) =
      clean_domain_name (chars "Hello World!")
    ∧ clean_domain_name (clean_domain_name (chars "Hello World!")) =
      clean_domain_name (chars "Hello World!") :=
  ⟨by decide, c3_idempotent_unless_new_suffix (chars "Hello World!") (by decide)⟩
